import Mathlib

/-!
Verification of the CatchUp lecture-processing pipeline.

Shallow embedding of the core algorithms and stateful operations of the
repository:

* `calculate_chunk_plan` — the transcriber's chunk planner
  (`VoxtralTranscriber._calculate_chunk_plan`), embedded with explicit fuel
  because the underlying `while` loop need not terminate.
* `apply_policy` / `concatenate_segments` — the Silero VAD
  "preserve natural pauses" segmentation policy
  (`SileroVadProcessor._apply_policy`, `_concatenate_segments`), at the
  sample level over `ℤ`.
* `parse_date_from_title` — the date extraction of `core/parsing.py`, with
  each regex pattern embedded as an explicit left-to-right scanner.
* `update_job_status`, `get_or_create_lecture` — the store operations of
  `db/database.py`, with the jobs table row as a record and the lectures
  table as a list.
* `pipeline_run` — `PipelineRunner.run`, embedded as the trace of store
  events (status updates, artifact inserts, stage-client invocations) it
  issues, over abstract stage clients modelled as `Except` values.
-/

namespace CatchUp

/-! ## Chunk planner (`VoxtralTranscriber._calculate_chunk_plan`) -/

/-- The body of the `while start < total` loop of `_calculate_chunk_plan`,
with explicit fuel: `none` means the loop did not finish within `fuel`
iterations.  Each iteration emits `(start, min (start + D) total)`, stops
once the emitted chunk reaches `total`, and otherwise continues from
`end - overlap`. -/
def chunkLoop (chunkDuration overlap total : ℚ) : Nat → ℚ → Option (List (ℚ × ℚ))
  | 0, _ => none
  | fuel + 1, start =>
    if start < total then
      if total ≤ min (start + chunkDuration) total then
        some [(start, min (start + chunkDuration) total)]
      else
        match chunkLoop chunkDuration overlap total fuel
            (min (start + chunkDuration) total - overlap) with
        | none => none
        | some l => some ((start, min (start + chunkDuration) total) :: l)
    else
      some []

/-- Embeds `VoxtralTranscriber._calculate_chunk_plan`: one chunk `(0, total)` when
`total ≤ chunkDuration`, otherwise the emission loop starting at `0`. -/
def calculate_chunk_plan (chunkDuration overlap total : ℚ) (fuel : Nat) :
    Option (List (ℚ × ℚ)) :=
  if total ≤ chunkDuration then some [(0, total)]
  else chunkLoop chunkDuration overlap total fuel 0

/-- Invariant established by the emission loop: the head chunk starts at
`start`, every point of `[start, total)` is covered, and consecutive chunks
are linked by `q.1 = p.2 - overlap`, `p.2 = p.1 + D`, `p.2 < q.2`. -/
def ChunkInv (D ov total start : ℚ) (l : List (ℚ × ℚ)) : Prop :=
  l.head? = some (start, min (start + D) total) ∧
  (∀ x : ℚ, start ≤ x → x < total → ∃ p ∈ l, p.1 ≤ x ∧ x < p.2) ∧
  List.Chain' (fun p q => q.1 = p.2 - ov ∧ p.2 = p.1 + D ∧ p.2 < q.2) l

lemma chunkLoop_inv (D ov total : ℚ) (hov : 0 ≤ ov) (hlt : ov < D) :
    ∀ (fuel : Nat) (start : ℚ) (l : List (ℚ × ℚ)), start < total →
      chunkLoop D ov total fuel start = some l → ChunkInv D ov total start l := by
  intro fuel
  induction fuel with
  | zero => intro start l _ h; simp [chunkLoop] at h
  | succ n ih =>
    intro start l hst h
    rw [chunkLoop] at h
    rw [if_pos hst] at h
    by_cases hend : total ≤ min (start + D) total
    · rw [if_pos hend] at h
      have hmin : min (start + D) total = total := le_antisymm (min_le_right _ _) hend
      obtain rfl : [(start, min (start + D) total)] = l := by
        simpa using h
      refine ⟨rfl, ?_, ?_⟩
      · intro x hx1 hx2
        exact ⟨(start, min (start + D) total), by simp, by simpa [hmin] using ⟨hx1, hx2⟩⟩
      · simp
    · rw [if_neg hend] at h
      have hlt2 : min (start + D) total < total := lt_of_not_le hend
      have hDlt : start + D < total := by
        by_contra hc
        rw [min_eq_right (le_of_not_lt hc)] at hlt2
        exact lt_irrefl _ hlt2
      have hmin : min (start + D) total = start + D := min_eq_left (le_of_lt hDlt)
      cases hrec : chunkLoop D ov total n (min (start + D) total - ov) with
      | none => rw [hrec] at h; simp at h
      | some l' =>
        rw [hrec] at h
        obtain rfl : (start, min (start + D) total) :: l' = l := by simpa using h
        have hst' : min (start + D) total - ov < total :=
          lt_of_le_of_lt (by linarith [hlt2]) hlt2
        obtain ⟨ih1, ih2, ih3⟩ := ih (min (start + D) total - ov) l' hst' hrec
        refine ⟨rfl, ?_, ?_⟩
        · intro x hx1 hx2
          by_cases hxe : x < min (start + D) total
          · exact ⟨(start, min (start + D) total), by simp, hx1, hxe⟩
          · have : min (start + D) total - ov ≤ x := by
              have := not_lt.mp hxe; linarith
            obtain ⟨p, hp1, hp2⟩ := ih2 x this hx2
            exact ⟨p, by simp [hp1], hp2⟩
        · refine List.chain'_cons'.mpr ⟨?_, ih3⟩
          intro q hq
          rw [ih1] at hq
          obtain rfl : (min (start + D) total - ov,
              min (min (start + D) total - ov + D) total) = q := by simpa using hq
          refine ⟨rfl, by rw [hmin], ?_⟩
          have h1 : min (start + D) total < min (start + D) total - ov + D := by linarith
          exact lt_min h1 hlt2

/-- Sufficient fuel: if `total ≤ start + fuel * (D - overlap)` then the loop
finishes within `fuel + 1` iterations. -/
lemma chunkLoop_enough_fuel (D ov total : ℚ) :
    ∀ (fuel : Nat) (start : ℚ), total ≤ start + fuel * (D - ov) →
      ∃ l, chunkLoop D ov total (fuel + 1) start = some l := by
  intro fuel
  induction fuel with
  | zero =>
    intro start hb
    refine ⟨[], ?_⟩
    rw [chunkLoop]
    rw [if_neg (by push_neg; simpa using hb)]
  | succ n ih =>
    intro start hb
    by_cases hst : start < total
    · by_cases hend : total ≤ min (start + D) total
      · exact ⟨[(start, min (start + D) total)], by
          rw [chunkLoop, if_pos hst, if_pos hend]⟩
      · have hlt2 : min (start + D) total < total := lt_of_not_le hend
        have hDlt : start + D < total := by
          by_contra hc
          rw [min_eq_right (le_of_not_lt hc)] at hlt2
          exact lt_irrefl _ hlt2
        have hmin : min (start + D) total = start + D := min_eq_left (le_of_lt hDlt)
        have hb' : total ≤ (min (start + D) total - ov) + n * (D - ov) := by
          rw [hmin]
          have : (n.succ : ℚ) = (n : ℚ) + 1 := by push_cast; ring
          rw [this] at hb
          linarith
        obtain ⟨l', hl'⟩ := ih (min (start + D) total - ov) hb'
        refine ⟨(start, min (start + D) total) :: l', ?_⟩
        rw [chunkLoop, if_pos hst, if_neg hend, hl']
    · exact ⟨[], by rw [chunkLoop, if_neg hst]⟩

/-- With `overlap ≥ chunkDuration` (and `total` beyond one chunk), the loop
start never leaves `(-∞, 0]`, so no amount of fuel finishes the loop. -/
lemma chunkLoop_diverges (D ov total : ℚ) (hD : 0 < D) (hov : D ≤ ov)
    (ht : D < total) :
    ∀ (fuel : Nat) (start : ℚ), start ≤ 0 →
      chunkLoop D ov total fuel start = none := by
  intro fuel
  induction fuel with
  | zero => intro start _; rfl
  | succ n ih =>
    intro start hst
    have hst' : start < total := lt_of_le_of_lt hst (by linarith)
    have hmin : min (start + D) total = start + D :=
      min_eq_left (by linarith)
    have hend : ¬ total ≤ min (start + D) total := by
      rw [hmin]; push_neg; linarith
    rw [chunkLoop, if_pos hst', if_neg hend,
      ih (min (start + D) total - ov) (by rw [hmin]; linarith)]

/-- C5 (amended): with `0 ≤ overlap < chunkDuration`, any result of the chunk
planner produces exactly one chunk `(0, total)` when `total ≤ chunkDuration`,
covers every point of `[0, total)` with no gaps, and every pair of
consecutive chunks overlaps by exactly `overlap` seconds (here proved for all
consecutive pairs, which subsumes the allowance for a shorter final chunk). -/
theorem chunk_plan_covers (D ov total : ℚ) (fuel : Nat) (l : List (ℚ × ℚ))
    (hov : 0 ≤ ov) (hlt : ov < D)
    (hres : calculate_chunk_plan D ov total fuel = some l) :
    (total ≤ D → l = [(0, total)]) ∧
    (∀ x : ℚ, 0 ≤ x → x < total → ∃ p ∈ l, p.1 ≤ x ∧ x < p.2) ∧
    List.Chain' (fun p q : ℚ × ℚ => min p.2 q.2 - max p.1 q.1 = ov) l := by
  rw [calculate_chunk_plan] at hres
  by_cases hsmall : total ≤ D
  · rw [if_pos hsmall] at hres
    obtain rfl : [((0 : ℚ), total)] = l := by simpa using hres
    refine ⟨fun _ => rfl, ?_, by simp⟩
    intro x hx1 hx2
    exact ⟨(0, total), by simp, hx1, hx2⟩
  · rw [if_neg hsmall] at hres
    have hst : (0 : ℚ) < total := by
      push_neg at hsmall
      linarith
    obtain ⟨_, hcov, hchain⟩ := chunkLoop_inv D ov total hov hlt fuel 0 l hst hres
    refine ⟨fun h => absurd h hsmall, hcov, ?_⟩
    refine List.Chain'.imp ?_ hchain
    rintro p q ⟨h1, h2, h3⟩
    have hple : p.1 ≤ q.1 := by rw [h1, h2]; linarith
    rw [min_eq_left (le_of_lt h3), max_eq_right hple, h1]
    ring

/-- C5 counterexample: with a negative `overlap` the planner terminates but
leaves a gap — for `chunkDuration = 10`, `overlap = -5`, `total = 15` the
plan is the single chunk `(0, 10)` and the point `12 ∈ [0, 15)` is covered
by no chunk. -/
theorem chunk_plan_gap_on_negative_overlap :
    calculate_chunk_plan 10 (-5) 15 2 = some [((0 : ℚ), 10)] ∧
    (0 : ℚ) ≤ 12 ∧ (12 : ℚ) < 15 ∧
    ∀ p ∈ [((0 : ℚ), (10 : ℚ))], ¬ (p.1 ≤ 12 ∧ (12 : ℚ) < p.2) := by
  refine ⟨?_, by norm_num, by norm_num, ?_⟩
  · rw [calculate_chunk_plan, if_neg (by norm_num), chunkLoop,
      if_pos (by norm_num), if_neg (by norm_num), chunkLoop]
    norm_num
  · intro p hp
    simp only [List.mem_singleton] at hp
    subst hp
    norm_num

theorem chunk_plan_covers_witness :
    ∃ p ∈ [((0 : ℚ), (600 : ℚ)), ((570 : ℚ), (700 : ℚ))],
      p.1 ≤ 650 ∧ (650 : ℚ) < p.2 :=
  (chunk_plan_covers 600 30 700 2 [(0, 600), (570, 700)]
    (by norm_num) (by norm_num)
    (by rw [calculate_chunk_plan, if_neg (by norm_num), chunkLoop,
          if_pos (by norm_num), if_neg (by norm_num), chunkLoop,
          if_pos (by norm_num), if_pos (by norm_num)]
        norm_num)).2.1 650 (by norm_num) (by norm_num)

/-- C7: the chunk planner's loop terminates for every total duration whenever
`0 ≤ overlap < chunkDuration`, and this strictness is required: as soon as
`overlap ≥ chunkDuration` and the total exceeds one chunk, no amount of fuel
finishes the loop. -/
theorem chunk_plan_fuel (D ov total : ℚ) (hD : 0 < D) :
    ((0 ≤ ov ∧ ov < D) →
      ∃ (fuel : Nat) (l : List (ℚ × ℚ)),
        calculate_chunk_plan D ov total fuel = some l) ∧
    ((D ≤ ov ∧ D < total) →
      ∀ fuel : Nat, calculate_chunk_plan D ov total fuel = none) := by
  constructor
  · rintro ⟨hov, hlt⟩
    by_cases hsmall : total ≤ D
    · exact ⟨1, [(0, total)], by rw [calculate_chunk_plan, if_pos hsmall]⟩
    · have hpos : 0 < D - ov := by linarith
      obtain ⟨n, hn⟩ := exists_nat_ge (total / (D - ov))
      have hb : total ≤ 0 + (n : ℚ) * (D - ov) := by
        rw [zero_add]
        calc total = total / (D - ov) * (D - ov) := by field_simp
        _ ≤ (n : ℚ) * (D - ov) := by
            exact mul_le_mul_of_nonneg_right hn (le_of_lt hpos)
      obtain ⟨l, hl⟩ := chunkLoop_enough_fuel D ov total n 0 hb
      exact ⟨n + 1, l, by rw [calculate_chunk_plan, if_neg hsmall]; exact hl⟩
  · rintro ⟨hov, ht⟩ fuel
    rw [calculate_chunk_plan, if_neg (by push_neg; exact ht)]
    exact chunkLoop_diverges D ov total hD hov ht fuel 0 (le_refl 0)

theorem chunk_plan_fuel_witness :
    ∃ (fuel : Nat) (l : List (ℚ × ℚ)),
      calculate_chunk_plan 600 30 1500 fuel = some l :=
  (chunk_plan_fuel 600 30 1500 (by norm_num)).1 ⟨by norm_num, by norm_num⟩

/-! ## VAD segmentation policy (`SileroVadProcessor._apply_policy`,
`_concatenate_segments`), at the sample level over `ℤ`. -/

/-- The `for` loop of `_apply_policy` from its second iteration on, carrying
the running segment `(curS, curE)`.  Each detected interval is expanded by
`padding` and clamped to `[0, len]`; a gap `< longSil` merges, a gap
`≥ longSil` closes the running segment, inserts a synthetic kept-silence
segment of length `keepSil` right after it, and restarts. -/
def apply_policy_loop (padding longSil keepSil len : ℤ) :
    ℤ → ℤ → List (ℤ × ℤ) → List (ℤ × ℤ)
  | curS, curE, [] => [(curS, curE)]
  | curS, curE, (s, e) :: rest =>
    if max 0 (s - padding) - curE < longSil then
      apply_policy_loop padding longSil keepSil len curS (min len (e + padding)) rest
    else
      (curS, curE) :: (curE, curE + keepSil) ::
        apply_policy_loop padding longSil keepSil len
          (max 0 (s - padding)) (min len (e + padding)) rest

/-- Embeds `SileroVadProcessor._apply_policy`: with no detected speech the whole
track `(0, len)` is returned; otherwise the loop starts from the first
expanded interval. -/
def apply_policy (padding longSil keepSil len : ℤ) :
    List (ℤ × ℤ) → List (ℤ × ℤ)
  | [] => [(0, len)]
  | (s, e) :: rest =>
    apply_policy_loop padding longSil keepSil len
      (max 0 (s - padding)) (min len (e + padding)) rest

/-- One Python slice `waveform[start:end]` after the clamping performed by
`_concatenate_segments` (`start = max 0 start`, `end = min len end`). -/
def slice_range {α : Type} (w : List α) (p : ℤ × ℤ) : List α :=
  (w.take (min (w.length : ℤ) p.2).toNat).drop (max 0 p.1).toNat

/-- Embeds `SileroVadProcessor._concatenate_segments`: clamp each range, slice, and
concatenate; an empty segment list returns the whole waveform. -/
def concatenate_segments {α : Type} (segs : List (ℤ × ℤ)) (w : List α) :
    List α :=
  if segs.isEmpty then w else (segs.map (slice_range w)).flatten

lemma apply_policy_pair_far (padding longSil keepSil len s1 e1 s2 e2 : ℤ)
    (hgap : longSil ≤ max 0 (s2 - padding) - min len (e1 + padding)) :
    apply_policy padding longSil keepSil len [(s1, e1), (s2, e2)] =
      [(max 0 (s1 - padding), min len (e1 + padding)),
       (min len (e1 + padding), min len (e1 + padding) + keepSil),
       (max 0 (s2 - padding), min len (e2 + padding))] := by
  rw [apply_policy, apply_policy_loop, if_neg (not_lt.mpr hgap)]
  rfl

lemma apply_policy_pair_near (padding longSil keepSil len s1 e1 s2 e2 : ℤ)
    (hgap : max 0 (s2 - padding) - min len (e1 + padding) < longSil) :
    apply_policy padding longSil keepSil len [(s1, e1), (s2, e2)] =
      [(max 0 (s1 - padding), min len (e2 + padding))] := by
  rw [apply_policy, apply_policy_loop, if_pos hgap]
  rfl

/-- C4: the segmentation policy returns the single full-length segment on an
empty interval list; two intervals whose expanded gap is `≥ longSil` yield
the first segment, a synthetic kept-silence segment of exactly `keepSil`
immediately after it, then the second segment; and two intervals whose
expanded gap is `< longSil` merge into one segment with no synthetic
silence. -/
theorem vad_policy_cases (padding longSil keepSil len : ℤ) :
    (apply_policy padding longSil keepSil len [] = [(0, len)]) ∧
    (∀ s1 e1 s2 e2 : ℤ,
      longSil ≤ max 0 (s2 - padding) - min len (e1 + padding) →
      apply_policy padding longSil keepSil len [(s1, e1), (s2, e2)] =
        [(max 0 (s1 - padding), min len (e1 + padding)),
         (min len (e1 + padding), min len (e1 + padding) + keepSil),
         (max 0 (s2 - padding), min len (e2 + padding))]) ∧
    (∀ s1 e1 s2 e2 : ℤ,
      max 0 (s2 - padding) - min len (e1 + padding) < longSil →
      apply_policy padding longSil keepSil len [(s1, e1), (s2, e2)] =
        [(max 0 (s1 - padding), min len (e2 + padding))]) := by
  exact ⟨rfl, fun s1 e1 s2 e2 h => apply_policy_pair_far _ _ _ _ _ _ _ _ h,
    fun s1 e1 s2 e2 h => apply_policy_pair_near _ _ _ _ _ _ _ _ h⟩

theorem vad_policy_cases_witness :
    apply_policy 1 5 2 100 [(0, 10), (30, 40)] = [(0, 11), (11, 13), (29, 41)] :=
  (vad_policy_cases 1 5 2 100).2.1 0 10 30 40 (by decide)

/-- C6: overlapping expanded intervals merge into a single output segment
(given a nonnegative long-silence threshold, as configured), and every range
is clamped to `[0, track length]` before concatenation, so each concatenated
slice is a contiguous piece of the track. -/
theorem vad_merge_and_clamp (padding longSil keepSil len : ℤ) :
    (∀ s1 e1 s2 e2 : ℤ, 0 ≤ longSil →
      max 0 (s2 - padding) < min len (e1 + padding) →
      apply_policy padding longSil keepSil len [(s1, e1), (s2, e2)] =
        [(max 0 (s1 - padding), min len (e2 + padding))]) ∧
    (∀ (w : List ℤ) (segs : List (ℤ × ℤ)), segs.isEmpty = false →
      concatenate_segments segs w = (segs.map (slice_range w)).flatten) ∧
    (∀ (w : List ℤ) (p : ℤ × ℤ),
      (0 : ℤ) ≤ max 0 p.1 ∧ min (w.length : ℤ) p.2 ≤ (w.length : ℤ) ∧
        (slice_range w p).IsInfix w) := by
  refine ⟨?_, ?_, ?_⟩
  · intro s1 e1 s2 e2 hsil hover
    exact apply_policy_pair_near padding longSil keepSil len s1 e1 s2 e2
      (by omega)
  · intro w segs hne
    rw [concatenate_segments, hne]
    rfl
  · intro w p
    refine ⟨le_max_left 0 p.1, min_le_left _ _, ?_⟩
    rw [slice_range]
    exact ((w.take (min (w.length : ℤ) p.2).toNat).drop_suffix
      (max 0 p.1).toNat).isInfix.trans (w.take_prefix _).isInfix

theorem vad_merge_and_clamp_witness :
    apply_policy 2 5 3 100 [(0, 10), (11, 20)] = [(0, 22)] :=
  (vad_merge_and_clamp 2 5 3 100).1 0 10 11 20 (by decide) (by decide)

/-! ## Date parsing (`core/parsing.py`, `parse_date_from_title`) -/

/-- Python regex `\w`: word character (letter, digit or underscore). -/
def isWordChar (c : Char) : Bool := c.isAlphanum || c == '_'

/-- Matches `(\d{4})-(\d{2})-(\d{2})` at the head of the character list,
returning the whole match (the source uses `group(0)` here). -/
def matchYMD : List Char → Option (List Char)
  | y1 :: y2 :: y3 :: y4 :: h1 :: m1 :: m2 :: h2 :: d1 :: d2 :: _ =>
    if y1.isDigit && y2.isDigit && y3.isDigit && y4.isDigit && h1 == '-' &&
        m1.isDigit && m2.isDigit && h2 == '-' && d1.isDigit && d2.isDigit then
      some [y1, y2, y3, y4, '-', m1, m2, '-', d1, d2]
    else none
  | _ => none

/-- Matches `(\d{2})\.(\d{2})\.(\d{4})` at the head, returning the groups
`(day, month, year)`. -/
def matchDMYdot : List Char → Option (List Char × List Char × List Char)
  | d1 :: d2 :: p1 :: m1 :: m2 :: p2 :: y1 :: y2 :: y3 :: y4 :: _ =>
    if d1.isDigit && d2.isDigit && p1 == '.' && m1.isDigit && m2.isDigit &&
        p2 == '.' && y1.isDigit && y2.isDigit && y3.isDigit && y4.isDigit then
      some ([d1, d2], [m1, m2], [y1, y2, y3, y4])
    else none
  | _ => none

/-- Matches `(\d{2})/(\d{2})/(\d{4})` at the head, returning the groups
`(day, month, year)`. -/
def matchDMYslash : List Char → Option (List Char × List Char × List Char)
  | d1 :: d2 :: p1 :: m1 :: m2 :: p2 :: y1 :: y2 :: y3 :: y4 :: _ =>
    if d1.isDigit && d2.isDigit && p1 == '/' && m1.isDigit && m2.isDigit &&
        p2 == '/' && y1.isDigit && y2.isDigit && y3.isDigit && y4.isDigit then
      some ([d1, d2], [m1, m2], [y1, y2, y3, y4])
    else none
  | _ => none

/-- Left-to-right scan of `re.search` for a fixed-shape pattern: return the
result of the leftmost start position at which the matcher succeeds. -/
def searchFirst {α : Type} (m : List Char → Option α) : List Char → Option α
  | [] => m []
  | c :: cs =>
    match m (c :: cs) with
    | some r => some r
    | none => searchFirst m cs

/-- Matches `\b(\d{2})\.(\d{2})\b` at the head, given the character just
before the start position (`none` at the start of the string), returning the
groups `(day, month)`. -/
def matchBare (prev : Option Char) :
    List Char → Option (List Char × List Char)
  | d1 :: d2 :: p1 :: m1 :: m2 :: rest =>
    if (match prev with | none => true | some c => !(isWordChar c)) &&
        d1.isDigit && d2.isDigit && p1 == '.' && m1.isDigit && m2.isDigit &&
        (match rest with | [] => true | c :: _ => !(isWordChar c)) then
      some ([d1, d2], [m1, m2])
    else none
  | _ => none

/-- Left-to-right scan for the word-bounded bare `DD.MM` pattern, carrying
the character before the current position. -/
def searchBare : Option Char → List Char → Option (List Char × List Char)
  | _, [] => none
  | prev, c :: cs =>
    match matchBare prev (c :: cs) with
    | some r => some r
    | none => searchBare (some c) cs

/-- Embeds `parse_date_from_title`: tries `YYYY-MM-DD`, `DD.MM.YYYY`,
`DD/MM/YYYY`, bare `DD.MM` in that order; the first matching pattern wins;
output is normalized to `YYYY-MM-DD`; the sentinel `"unknown"` if none
match.  `currentYear` stands for the four digits of `datetime.now().year`,
used only by the bare `DD.MM` pattern. -/
def parse_date_from_title (currentYear : List Char) (title : List Char) :
    List Char :=
  match searchFirst matchYMD title with
  | some whole => whole
  | none =>
    match searchFirst matchDMYdot title with
    | some (d, m, y) => y ++ '-' :: (m ++ '-' :: d)
    | none =>
      match searchFirst matchDMYslash title with
      | some (d, m, y) => y ++ '-' :: (m ++ '-' :: d)
      | none =>
        match searchBare none title with
        | some (d, m) => currentYear ++ '-' :: (m ++ '-' :: d)
        | none => "unknown".data

/-- C8: `parse_date_from_title` tries the four patterns in the fixed order
`YYYY-MM-DD`, `DD.MM.YYYY`, `DD/MM/YYYY`, bare `DD.MM` (current year),
normalizes the first match to `YYYY-MM-DD` form — so `"08.02.2026"`,
`"08/02/2026"` and `"2026-02-08"` all yield `"2026-02-08"` — and returns the
sentinel `"unknown"` when no pattern matches. -/
theorem parse_date_spec :
    (∀ y : List Char,
      parse_date_from_title y "08.02.2026".data = "2026-02-08".data) ∧
    (∀ y : List Char,
      parse_date_from_title y "08/02/2026".data = "2026-02-08".data) ∧
    (∀ y : List Char,
      parse_date_from_title y "2026-02-08".data = "2026-02-08".data) ∧
    (∀ (y t whole : List Char),
      searchFirst matchYMD t = some whole →
      parse_date_from_title y t = whole) ∧
    (∀ (y t d m yr : List Char),
      searchFirst matchYMD t = none →
      searchFirst matchDMYdot t = some (d, m, yr) →
      parse_date_from_title y t = yr ++ '-' :: (m ++ '-' :: d)) ∧
    (∀ (y t d m yr : List Char),
      searchFirst matchYMD t = none →
      searchFirst matchDMYdot t = none →
      searchFirst matchDMYslash t = some (d, m, yr) →
      parse_date_from_title y t = yr ++ '-' :: (m ++ '-' :: d)) ∧
    (∀ (y t d m : List Char),
      searchFirst matchYMD t = none →
      searchFirst matchDMYdot t = none →
      searchFirst matchDMYslash t = none →
      searchBare none t = some (d, m) →
      parse_date_from_title y t = y ++ '-' :: (m ++ '-' :: d)) ∧
    (∀ y t : List Char,
      searchFirst matchYMD t = none →
      searchFirst matchDMYdot t = none →
      searchFirst matchDMYslash t = none →
      searchBare none t = none →
      parse_date_from_title y t = "unknown".data) := by
  refine ⟨fun y => rfl, fun y => rfl, fun y => rfl, ?_, ?_, ?_, ?_, ?_⟩
  · intro y t whole h1
    rw [parse_date_from_title, h1]
  · intro y t d m yr h1 h2
    rw [parse_date_from_title, h1, h2]
  · intro y t d m yr h1 h2 h3
    rw [parse_date_from_title, h1, h2, h3]
  · intro y t d m h1 h2 h3 h4
    rw [parse_date_from_title, h1, h2, h3, h4]
  · intro y t h1 h2 h3 h4
    rw [parse_date_from_title, h1, h2, h3, h4]

theorem parse_date_spec_witness :
    parse_date_from_title "2026".data "Lecture one".data = "unknown".data :=
  parse_date_spec.2.2.2.2.2.2.2 "2026".data "Lecture one".data
    (by decide) (by decide) (by decide) (by decide)

/-! ## Job/Artifact store (`db/database.py`) and the pipeline runner
(`pipeline/runner.py`, `PipelineRunner.run`).

The runner is embedded as the trace of store events it issues, over abstract
stage clients modelled as `Except String` values (an `Except.error m` stands
for the client raising an exception whose `str` is `m`).  File writes and
log text are outside the store and not modelled; the per-job log file shows
up as the `log` artifact registered in the `finally` block. -/

inductive JStatus where
  | queued | downloading | converting | vad | transcribing | summarizing
  | done | error
deriving DecidableEq

inductive AType where
  | metadata_json | audio_original_wav | audio_vad_wav | raw_transcript_txt
  | transcript_chunks_json | summary_md | summary_json | log
deriving DecidableEq

inductive Stage where
  | download | convert | vadStage | transcribe | summarize
deriving DecidableEq

/-- One store call issued by the runner.  `invoke` marks the `await` of a
stage client and touches no store state; it exists so that the order between
status updates and stage invocations can be stated. -/
inductive Event where
  | updateStatus (status : JStatus) (progress : Option ℚ)
      (errorMessage : Option String)
  | createArtifact (ty : AType)
  | invoke (stage : Stage)
deriving DecidableEq

/-- The five stage clients, abstracted to their outcome. -/
structure StageClients where
  downloader : Except String String
  converter : Except String Unit
  vadProcessor : Except String Unit
  transcriber : Except String (String × List String)
  summarizer : Except String String

def stageStatus : Stage → JStatus
  | .download => .downloading
  | .convert => .converting
  | .vadStage => .vad
  | .transcribe => .transcribing
  | .summarize => .summarizing

/-- The fixed progress checkpoint written together with each stage status. -/
def stageProgress : Stage → ℚ
  | .download => mkRat 1 10
  | .convert => mkRat 2 10
  | .vadStage => mkRat 3 10
  | .transcribe => mkRat 4 10
  | .summarize => mkRat 7 10

/-- The `update_job_status` call issued just before invoking a stage. -/
def stageUpd (st : Stage) : Event :=
  .updateStatus (stageStatus st) (some (stageProgress st)) none

/-- The `try` block of `PipelineRunner.run`: the store events issued in
order, and `some m` when a stage client raised an exception with message
`m` (no later stage is attempted). -/
def runBody (c : StageClients) : List Event × Option String :=
  match c.downloader with
  | .error m => ([stageUpd .download, .invoke .download], some m)
  | .ok _ =>
    match c.converter with
    | .error m =>
      ([stageUpd .download, .invoke .download,
        stageUpd .convert, .invoke .convert], some m)
    | .ok _ =>
      match c.vadProcessor with
      | .error m =>
        ([stageUpd .download, .invoke .download,
          stageUpd .convert, .invoke .convert,
          .createArtifact .audio_original_wav,
          stageUpd .vadStage, .invoke .vadStage], some m)
      | .ok _ =>
        match c.transcriber with
        | .error m =>
          ([stageUpd .download, .invoke .download,
            stageUpd .convert, .invoke .convert,
            .createArtifact .audio_original_wav,
            stageUpd .vadStage, .invoke .vadStage,
            .createArtifact .audio_vad_wav,
            stageUpd .transcribe, .invoke .transcribe], some m)
        | .ok _ =>
          match c.summarizer with
          | .error m =>
            ([stageUpd .download, .invoke .download,
              stageUpd .convert, .invoke .convert,
              .createArtifact .audio_original_wav,
              stageUpd .vadStage, .invoke .vadStage,
              .createArtifact .audio_vad_wav,
              stageUpd .transcribe, .invoke .transcribe,
              .createArtifact .raw_transcript_txt,
              .createArtifact .transcript_chunks_json,
              stageUpd .summarize, .invoke .summarize], some m)
          | .ok _ =>
            ([stageUpd .download, .invoke .download,
              stageUpd .convert, .invoke .convert,
              .createArtifact .audio_original_wav,
              stageUpd .vadStage, .invoke .vadStage,
              .createArtifact .audio_vad_wav,
              stageUpd .transcribe, .invoke .transcribe,
              .createArtifact .raw_transcript_txt,
              .createArtifact .transcript_chunks_json,
              stageUpd .summarize, .invoke .summarize,
              .createArtifact .summary_md,
              .updateStatus .done (some 1) none], none)

/-- Embeds `PipelineRunner.run`: the `try` block, then on exception the
`except` block's ERROR update (no progress, message verbatim), then the
`finally` block's LOG artifact; the exception is re-raised (`some m` in the
second component). -/
def pipeline_run (c : StageClients) : List Event × Option String :=
  match runBody c with
  | (tr, none) => (tr ++ [.createArtifact .log], none)
  | (tr, some m) =>
    (tr ++ [.updateStatus .error none (some m), .createArtifact .log], some m)

/-- One row of the `jobs` table (the columns `update_job_status` touches). -/
structure JobRec where
  status : JStatus
  progress : ℚ
  errorMessage : Option String
  finishedAt : Option ℚ
deriving DecidableEq

/-- Embeds `Database.update_job_status`: `status` is always written;
`progress` and `error_message` only when passed (`some`); `finished_at` is
written (to the current time `now`) exactly when the new status is DONE or
ERROR. -/
def update_job_status (j : JobRec) (status : JStatus) (progress : Option ℚ)
    (errorMessage : Option String) (now : ℚ) : JobRec :=
  { status := status
    progress := match progress with | some p => p | none => j.progress
    errorMessage :=
      match errorMessage with | some m => some m | none => j.errorMessage
    finishedAt :=
      if status = .done ∨ status = .error then some now else j.finishedAt }

/-- The store state a single run touches: its job row and the artifact types
registered for its lecture. -/
structure Store where
  job : JobRec
  artifacts : List AType
deriving DecidableEq

def applyEvent (now : ℚ) (s : Store) : Event → Store
  | .updateStatus st p em =>
    { s with job := update_job_status s.job st p em now }
  | .createArtifact ty => { s with artifacts := s.artifacts ++ [ty] }
  | .invoke _ => s

def applyEvents (now : ℚ) (s : Store) (tr : List Event) : Store :=
  tr.foldl (applyEvent now) s

/-- The job row as created by the API layer: QUEUED with progress 0. -/
def initialJob : JobRec :=
  { status := .queued, progress := 0, errorMessage := none, finishedAt := none }

def initialStore : Store := { job := initialJob, artifacts := [] }

/-- The first stage client that raises, with its message — i.e. the stage at
which `PipelineRunner.run` aborts (`none` when all five succeed). -/
def firstFailure (c : StageClients) : Option (Stage × String) :=
  match c.downloader with
  | .error m => some (.download, m)
  | .ok _ =>
    match c.converter with
    | .error m => some (.convert, m)
    | .ok _ =>
      match c.vadProcessor with
      | .error m => some (.vadStage, m)
      | .ok _ =>
        match c.transcriber with
        | .error m => some (.transcribe, m)
        | .ok _ =>
          match c.summarizer with
          | .error m => some (.summarize, m)
          | .ok _ => none

/-- C1: if the stage client at which the run aborts raised with message `m`,
the exception is re-raised to the caller, and the store ends with the job in
status ERROR, `error_message` equal to `m` verbatim, `finished_at` set, and
the LOG artifact still registered (the `finally` block runs). -/
theorem pipeline_error_path (c : StageClients) (st : Stage) (m : String)
    (now : ℚ) (h : firstFailure c = some (st, m)) :
    (pipeline_run c).2 = some m ∧
    (applyEvents now initialStore (pipeline_run c).1).job.status = .error ∧
    (applyEvents now initialStore (pipeline_run c).1).job.errorMessage =
      some m ∧
    (applyEvents now initialStore (pipeline_run c).1).job.finishedAt =
      some now ∧
    Event.createArtifact .log ∈ (pipeline_run c).1 ∧
    AType.log ∈ (applyEvents now initialStore (pipeline_run c).1).artifacts := by
  obtain ⟨dl, cv, vd, tr, sm⟩ := c
  cases dl <;> cases cv <;> cases vd <;> cases tr <;> cases sm <;>
    simp [firstFailure] at h <;>
    obtain ⟨rfl, rfl⟩ := h <;>
    simp [pipeline_run, runBody, applyEvents, applyEvent, update_job_status,
      stageUpd, stageStatus, stageProgress, initialStore, initialJob]

theorem pipeline_error_path_witness :
    (pipeline_run
      { downloader := Except.ok "f", converter := Except.error "boom",
        vadProcessor := Except.ok (), transcriber := Except.ok ("", []),
        summarizer := Except.ok "s" }).2 = some "boom" :=
  (pipeline_error_path
    { downloader := Except.ok "f", converter := Except.error "boom",
      vadProcessor := Except.ok (), transcriber := Except.ok ("", []),
      summarizer := Except.ok "s" } .convert "boom" 0 (by rfl)).1

/-- C2: when all five stage clients succeed, the run returns normally, the
job ends DONE with progress exactly 1, and the artifact types registered for
the lecture include all of `audio_original_wav`, `audio_vad_wav`,
`raw_transcript_txt`, `transcript_chunks_json`, `summary_md` and `log`. -/
theorem pipeline_success_path (c : StageClients) (now : ℚ)
    (h : firstFailure c = none) :
    (pipeline_run c).2 = none ∧
    (applyEvents now initialStore (pipeline_run c).1).job.status = .done ∧
    (applyEvents now initialStore (pipeline_run c).1).job.progress = 1 ∧
    [AType.audio_original_wav, AType.audio_vad_wav, AType.raw_transcript_txt,
     AType.transcript_chunks_json, AType.summary_md, AType.log] ⊆
      (applyEvents now initialStore (pipeline_run c).1).artifacts := by
  obtain ⟨dl, cv, vd, tr, sm⟩ := c
  cases dl <;> cases cv <;> cases vd <;> cases tr <;> cases sm <;>
    simp [firstFailure] at h <;>
    (refine ⟨by simp [pipeline_run, runBody], ?_, ?_, ?_⟩ <;>
     simp [pipeline_run, runBody, applyEvents, applyEvent, update_job_status,
       stageUpd, stageStatus, stageProgress, initialStore, initialJob,
       List.subset_def])

theorem pipeline_success_path_witness :
    (applyEvents 0 initialStore (pipeline_run
      { downloader := Except.ok "f", converter := Except.ok (),
        vadProcessor := Except.ok (), transcriber := Except.ok ("", []),
        summarizer := Except.ok "s" }).1).job.status = .done :=
  (pipeline_success_path
    { downloader := Except.ok "f", converter := Except.ok (),
      vadProcessor := Except.ok (), transcriber := Except.ok ("", []),
      summarizer := Except.ok "s" } 0 (by rfl)).2.1

/-- C10: `update_job_status` writes only the columns implied by its
arguments — omitted `progress` and omitted `error_message` leave the stored
values unchanged, `status` is always written, and `finished_at` is written
exactly when the new status is DONE or ERROR; consequently the ERROR update
issued by `PipelineRunner.run` (which passes no progress) leaves the job's
progress at the checkpoint of the failing stage. -/
theorem update_job_status_frame :
    (∀ (j : JobRec) (st : JStatus) (em : Option String) (now : ℚ),
      (update_job_status j st none em now).progress = j.progress) ∧
    (∀ (j : JobRec) (st : JStatus) (p : Option ℚ) (now : ℚ),
      (update_job_status j st p none now).errorMessage = j.errorMessage) ∧
    (∀ (j : JobRec) (st : JStatus) (p : Option ℚ) (em : Option String)
        (now : ℚ),
      (update_job_status j st p em now).status = st) ∧
    (∀ (j : JobRec) (st : JStatus) (p : Option ℚ) (em : Option String)
        (now : ℚ),
      (update_job_status j st p em now).finishedAt =
        if st = .done ∨ st = .error then some now else j.finishedAt) ∧
    (∀ (c : StageClients) (st : Stage) (m : String) (now : ℚ),
      firstFailure c = some (st, m) →
      (applyEvents now initialStore (pipeline_run c).1).job.progress =
        stageProgress st) := by
  refine ⟨fun j st em now => rfl, fun j st p now => rfl,
    fun j st p em now => rfl, fun j st p em now => rfl, ?_⟩
  intro c st m now h
  obtain ⟨dl, cv, vd, tr, sm⟩ := c
  cases dl <;> cases cv <;> cases vd <;> cases tr <;> cases sm <;>
    simp [firstFailure] at h <;>
    (obtain ⟨rfl, rfl⟩ := h
     simp [pipeline_run, runBody, applyEvents, applyEvent, update_job_status,
       stageUpd, stageStatus, stageProgress, initialStore, initialJob])

theorem update_job_status_frame_witness :
    (applyEvents 0 initialStore (pipeline_run
      { downloader := Except.ok "f", converter := Except.error "boom",
        vadProcessor := Except.ok (), transcriber := Except.ok ("", []),
        summarizer := Except.ok "s" }).1).job.progress = stageProgress .convert :=
  update_job_status_frame.2.2.2.2
    { downloader := Except.ok "f", converter := Except.error "boom",
      vadProcessor := Except.ok (), transcriber := Except.ok ("", []),
      summarizer := Except.ok "s" } .convert "boom" 0 (by rfl)

/-- The job-status updates issued in a trace, with the progress each one
carries (the projection of the trace onto `update_job_status` calls). -/
def traceUpdates (tr : List Event) : List (JStatus × Option ℚ) :=
  tr.filterMap fun e =>
    match e with
    | .updateStatus s p _ => some (s, p)
    | _ => none

/-- The full ordered checkpoint sequence of a successful run. -/
def fullCheckpoints : List (JStatus × Option ℚ) :=
  [(.downloading, some (stageProgress .download)),
   (.converting, some (stageProgress .convert)),
   (.vad, some (stageProgress .vadStage)),
   (.transcribing, some (stageProgress .transcribe)),
   (.summarizing, some (stageProgress .summarize)),
   (.done, some 1)]

/-- Position of each status in the forward order, with ERROR above every
non-terminal state. -/
def statusRank : JStatus → Nat
  | .queued => 0
  | .downloading => 1
  | .converting => 2
  | .vad => 3
  | .transcribing => 4
  | .summarizing => 5
  | .done => 6
  | .error => 7

lemma isInfix_append_left {α : Type} {l l₁ : List α} (l₂ : List α)
    (h : l <:+: l₁) : l <:+: l₁ ++ l₂ :=
  h.trans (List.prefix_append l₁ l₂).isInfix

lemma trace_shape (c : StageClients) :
    traceUpdates (pipeline_run c).1 = fullCheckpoints ∨
      ∃ k ∈ [1, 2, 3, 4, 5],
        traceUpdates (pipeline_run c).1 =
          fullCheckpoints.take k ++ [((.error : JStatus), (none : Option ℚ))] := by
  obtain ⟨dl, cv, vd, tr, sm⟩ := c
  cases dl <;> cases cv <;> cases vd <;> cases tr <;> cases sm <;>
    first
      | decide
      | (simp [pipeline_run, runBody, traceUpdates, stageUpd]
         try decide)

lemma upd_before_invoke (c : StageClients) (st : Stage)
    (hmem : Event.invoke st ∈ (pipeline_run c).1) :
    [stageUpd st, Event.invoke st] <:+: (pipeline_run c).1 := by
  obtain ⟨dl, cv, vd, tr, sm⟩ := c
  cases dl <;> cases cv <;> cases vd <;> cases tr <;> cases sm <;>
    cases st <;>
    first
      | (refine isInfix_append_left _ ?_
         decide)
      | (exfalso
         revert hmem
         simp [pipeline_run, runBody, stageUpd, stageStatus])

lemma trace_chain (c : StageClients) :
    List.Chain' (fun p q : JStatus × Option ℚ =>
      statusRank p.1 < statusRank q.1) (traceUpdates (pipeline_run c).1) := by
  obtain ⟨dl, cv, vd, tr, sm⟩ := c
  cases dl <;> cases cv <;> cases vd <;> cases tr <;> cases sm <;>
    (simp [pipeline_run, runBody, traceUpdates, stageUpd, stageStatus,
      statusRank]
     try decide)

lemma trace_error_last (c : StageClients)
    (hmem : ((.error : JStatus), (none : Option ℚ)) ∈
      traceUpdates (pipeline_run c).1) :
    (traceUpdates (pipeline_run c).1).getLast? =
      some ((.error : JStatus), (none : Option ℚ)) := by
  obtain ⟨dl, cv, vd, tr, sm⟩ := c
  cases dl <;> cases cv <;> cases vd <;> cases tr <;> cases sm <;>
    (revert hmem
     simp [pipeline_run, runBody, traceUpdates, stageUpd]
     try decide)

lemma error_reachable :
    ∀ k ∈ [1, 2, 3, 4, 5], ∃ c2 : StageClients,
      traceUpdates (pipeline_run c2).1 =
        fullCheckpoints.take k ++ [((.error : JStatus), (none : Option ℚ))] := by
  intro k hk
  fin_cases hk
  · exact ⟨⟨.error "e", .ok (), .ok (), .ok ("", []), .ok ""⟩, by decide⟩
  · exact ⟨⟨.ok "f", .error "e", .ok (), .ok ("", []), .ok ""⟩, by decide⟩
  · exact ⟨⟨.ok "f", .ok (), .error "e", .ok ("", []), .ok ""⟩, by decide⟩
  · exact ⟨⟨.ok "f", .ok (), .ok (), .error "e", .ok ""⟩, by decide⟩
  · exact ⟨⟨.ok "f", .ok (), .ok (), .ok ("", []), .error "e"⟩, by decide⟩

/-- C3: in every run the status update for a stage is issued immediately
before that stage's client is invoked; the update sequence is the fixed
checkpoint sequence DOWNLOADING=0.1, CONVERTING=0.2, VAD=0.3,
TRANSCRIBING=0.4, SUMMARIZING=0.7, DONE=1.0 in that order (cut short by a
single ERROR update on failure); the status never moves backward in the
order that places ERROR above every non-terminal state; an ERROR update is
always the last one; and ERROR is reachable right after each of the five
stage checkpoints. -/
theorem pipeline_status_order (c : StageClients) :
    (traceUpdates (pipeline_run c).1 = fullCheckpoints ∨
      ∃ k ∈ [1, 2, 3, 4, 5],
        traceUpdates (pipeline_run c).1 =
          fullCheckpoints.take k ++
            [((.error : JStatus), (none : Option ℚ))]) ∧
    (∀ st : Stage, Event.invoke st ∈ (pipeline_run c).1 →
      [stageUpd st, Event.invoke st] <:+: (pipeline_run c).1) ∧
    List.Chain' (fun p q : JStatus × Option ℚ =>
      statusRank p.1 < statusRank q.1) (traceUpdates (pipeline_run c).1) ∧
    (((.error : JStatus), (none : Option ℚ)) ∈ traceUpdates (pipeline_run c).1 →
      (traceUpdates (pipeline_run c).1).getLast? =
        some ((.error : JStatus), (none : Option ℚ))) ∧
    (∀ k ∈ [1, 2, 3, 4, 5], ∃ c2 : StageClients,
      traceUpdates (pipeline_run c2).1 =
        fullCheckpoints.take k ++
          [((.error : JStatus), (none : Option ℚ))]) :=
  ⟨trace_shape c, fun st h => upd_before_invoke c st h, trace_chain c,
    fun h => trace_error_last c h, error_reachable⟩

theorem pipeline_status_order_witness :
    [stageUpd .download, Event.invoke .download] <:+:
      (pipeline_run
        { downloader := Except.ok "f", converter := Except.ok (),
          vadProcessor := Except.ok (), transcriber := Except.ok ("", []),
          summarizer := Except.ok "s" }).1 :=
  (pipeline_status_order
    { downloader := Except.ok "f", converter := Except.ok (),
      vadProcessor := Except.ok (), transcriber := Except.ok ("", []),
      summarizer := Except.ok "s" }).2.1 .download (by decide)

/-! ## Lecture records (`db/database.py`, `get_or_create_lecture`) -/

/-- One row of the `lectures` table (the columns relevant to dedup). -/
structure LectureRec where
  lecture_id : String
  course_code : String
  lecture_date : String
  title : String
  source_url : String
  source_uid : String
deriving DecidableEq

/-- Embeds `Database.get_lecture_by_uid`: `SELECT * FROM lectures WHERE
source_uid = ?`, on the table as an insertion-ordered list. -/
def get_lecture_by_uid (ls : List LectureRec) (uid : String) :
    Option LectureRec :=
  ls.find? fun l => l.source_uid == uid

/-- Embeds `Database.create_lecture`: `INSERT INTO lectures ...`. -/
def create_lecture (ls : List LectureRec) (l : LectureRec) : List LectureRec :=
  ls ++ [l]

/-- Embeds `Database.get_or_create_lecture`: return the existing record (and
`false`) when one with the same `source_uid` exists, else insert and return
the new record (and `true`).  The result pairs the returned
`(lecture, created)` with the table after the call. -/
def get_or_create_lecture (ls : List LectureRec) (l : LectureRec) :
    (LectureRec × Bool) × List LectureRec :=
  match get_lecture_by_uid ls l.source_uid with
  | some existing => ((existing, false), ls)
  | none => ((l, true), create_lecture ls l)

lemma find?_append_none {α : Type} (p : α → Bool) (as bs : List α)
    (h : as.find? p = none) : (as ++ bs).find? p = bs.find? p := by
  induction as with
  | nil => rfl
  | cons a as ih =>
    cases hpa : p a with
    | true =>
      rw [List.find?_cons_of_pos _ hpa] at h
      simp at h
    | false =>
      rw [List.find?_cons_of_neg _ (by simp [hpa])] at h
      rw [List.cons_append, List.find?_cons_of_neg _ (by simp [hpa])]
      exact ih h

/-- C9: starting from a table with no record for the shared `source_uid`,
get-or-create with `l1` and then with any `l2` sharing `l1`'s `source_uid`
returns the same `lecture_id` both times (created first, reused second),
leaves the table unchanged on the second call, and the table holds exactly
one record with that `source_uid`. -/
theorem lecture_get_or_create_dedup (ls : List LectureRec)
    (l1 l2 : LectureRec) (huid : l2.source_uid = l1.source_uid)
    (hfresh : get_lecture_by_uid ls l1.source_uid = none) :
    (get_or_create_lecture ls l1).1.1.lecture_id = l1.lecture_id ∧
    (get_or_create_lecture ls l1).1.2 = true ∧
    (get_or_create_lecture (get_or_create_lecture ls l1).2 l2).1.1.lecture_id
      = l1.lecture_id ∧
    (get_or_create_lecture (get_or_create_lecture ls l1).2 l2).1.2 = false ∧
    (get_or_create_lecture (get_or_create_lecture ls l1).2 l2).2 =
      (get_or_create_lecture ls l1).2 ∧
    ((get_or_create_lecture ls l1).2.filter
      fun l => l.source_uid == l1.source_uid).length = 1 := by
  have h1 : get_or_create_lecture ls l1 = ((l1, true), ls ++ [l1]) := by
    rw [get_or_create_lecture, hfresh]
    rfl
  have h2 : get_lecture_by_uid (ls ++ [l1]) l2.source_uid = some l1 := by
    rw [get_lecture_by_uid, huid]
    rw [find?_append_none _ ls [l1] hfresh]
    simp [List.find?]
  have h3 : get_or_create_lecture (ls ++ [l1]) l2 = ((l1, false), ls ++ [l1]) := by
    rw [get_or_create_lecture, h2]
  have h4 : ls.filter (fun l => l.source_uid == l1.source_uid) = [] := by
    rw [List.filter_eq_nil_iff]
    intro a ha
    intro hpa
    have := List.find?_eq_none.mp hfresh a ha
    exact this hpa
  refine ⟨by rw [h1], by rw [h1], ?_, ?_, ?_, ?_⟩
  · rw [h1, h3]
  · rw [h1, h3]
  · rw [h1, h3]
  · rw [h1]
    simp only [List.filter_append, h4, List.nil_append]
    simp [List.filter]

theorem lecture_get_or_create_dedup_witness :
    (get_or_create_lecture (get_or_create_lecture []
      { lecture_id := "ELE130_2026-02-08_abc", course_code := "ELE130",
        lecture_date := "2026-02-08", title := "ELE130 Lecture",
        source_url := "u1", source_uid := "abc" }).2
      { lecture_id := "other", course_code := "ELE130",
        lecture_date := "2026-02-08", title := "ELE130 Lecture again",
        source_url := "u2", source_uid := "abc" }).1.1.lecture_id =
      "ELE130_2026-02-08_abc" :=
  (lecture_get_or_create_dedup []
    { lecture_id := "ELE130_2026-02-08_abc", course_code := "ELE130",
      lecture_date := "2026-02-08", title := "ELE130 Lecture",
      source_url := "u1", source_uid := "abc" }
    { lecture_id := "other", course_code := "ELE130",
      lecture_date := "2026-02-08", title := "ELE130 Lecture again",
      source_url := "u2", source_uid := "abc" } (by rfl) (by rfl)).2.2.1

end CatchUp
